import Mathlib

/-!
# spotify_lcd: the render tick and the button sampling loop of `main.go`

A shallow embedding of `src/main.go`.

* Go strings are byte sequences (`len` counts bytes, `s[from:to]` slices bytes).
* `fmt.Sprintf("%-*s", length, s)` pads on the right up to a width that Go's `fmt`
  measures in runes (`utf8.RuneCountInString`), not in bytes.
* The display is driven through `Goto`, `Print` and `WriteData`; together with
  `time.Sleep` these calls are recorded, in program order, as a list of `Op`.
* `float64` arithmetic is IEEE-754 binary64 with round-to-nearest-even.
* A panic (slice bounds out of range) is the result `none`.
-/

namespace SpotifyLcd

/-! ## Go strings -/

/-- A Go string: an immutable sequence of bytes. -/
abbrev GoString := List UInt8

/-- The bytes of an ASCII string literal: one byte per character. -/
def lit (s : String) : GoString := s.toList.map (fun c => UInt8.ofNat c.toNat)

/-- Go's builtin `len` on a string: the number of bytes. -/
def len (s : GoString) : Int := (s.length : Int)

/-- The slice expression `s[from:to]`; out-of-range indices panic (`none`). -/
def slice (s : GoString) (from_ to_ : Int) : Option GoString :=
  if 0 ≤ from_ ∧ from_ ≤ to_ ∧ to_ ≤ len s then
    some ((s.drop from_.toNat).take (to_ - from_).toNat)
  else none

/-- The table `first` of Go's `unicode/utf8`, restricted to what rune counting reads:
for a lead byte of a multi-byte encoding, the size of the encoding and the
accepted range of the second byte; `none` for the entries marked invalid (`xx`). -/
def first (c : UInt8) : Option (Nat × UInt8 × UInt8) :=
  if c < 0xC2 then none
  else if c < 0xE0 then some (2, 0x80, 0xBF)
  else if c = 0xE0 then some (3, 0xA0, 0xBF)
  else if c = 0xED then some (3, 0x80, 0x9F)
  else if c < 0xF0 then some (3, 0x80, 0xBF)
  else if c = 0xF0 then some (4, 0x90, 0xBF)
  else if c < 0xF4 then some (4, 0x80, 0xBF)
  else if c = 0xF4 then some (4, 0x80, 0x8F)
  else none

/-- The number of bytes that the loop of `utf8.RuneCountInString` consumes for the
rune starting at byte `c` followed by `rest`: 1 for ASCII, for an invalid lead
byte, for a truncated encoding and for an encoding with a bad continuation
byte; otherwise the size of the encoding. -/
def runeSize (c : UInt8) (rest : GoString) : Nat :=
  if c < 0x80 then 1
  else
    match first c with
    | none => 1
    | some (size, lo, hi) =>
      if 1 + rest.length < size then 1
      else
        match rest with
        | [] => 1
        | c1 :: rest1 =>
          if c1 < lo ∨ hi < c1 then 1
          else if size = 2 then 2
          else
            match rest1 with
            | [] => 1
            | c2 :: rest2 =>
              if c2 < 0x80 ∨ 0xBF < c2 then 1
              else if size = 3 then 3
              else
                match rest2 with
                | [] => 1
                | c3 :: _ => if c3 < 0x80 ∨ 0xBF < c3 then 1 else 4

/-- The loop of `utf8.RuneCountInString`: `skip` bytes of the current rune are still
to be stepped over; every rune start adds one to the count. -/
def runeCountFrom : Nat → GoString → Nat
  | _, [] => 0
  | skip + 1, _ :: rest => runeCountFrom skip rest
  | 0, c :: rest => runeCountFrom (runeSize c rest - 1) rest + 1

/-- Go's `utf8.RuneCountInString`: the number of runes in `s`, an erroneous or short
encoding counting as a single rune of width 1 byte. -/
def RuneCountInString (s : GoString) : Nat := runeCountFrom 0 s

/-- The space character. -/
def space : UInt8 := 0x20

/-- From `main.go`: `pad` is `fmt.Sprintf("%-*s", length, s)`: `s` followed by
spaces up to a width of `length` runes. The width is a natural number here
(the only call passes 14). -/
def pad (s : GoString) (length : Nat) : GoString :=
  s ++ List.replicate (length - RuneCountInString s) space

/-- From `main.go`: `substring`. -/
def substring (s : GoString) (from_ length : Int) : Option GoString :=
  if from_ > len s then some []
  else
    let to_ := from_ + length
    let to_ := if to_ > len s then len s else to_
    slice s from_ to_

/-! ## Display operations -/

/-- One call on the display (`d.Goto`, `d.Print`, `d.WriteData`) or `time.Sleep`
(in milliseconds). -/
inductive Op where
  | Goto (row col : Nat)
  | Print (s : GoString)
  | WriteData (b : UInt8)
  | Sleep (ms : Nat)
  deriving DecidableEq

/-- A loop `for i := 0; i < n; i++ { body }` whose body does not depend on `i`. -/
def forLoop (n : Int) (body : List Op) : List Op :=
  (List.replicate n.toNat body).flatten

/-- The string built by `s := ""; for i := 0; i < 17; i++ { s = s + " " }`. -/
def blankRow : GoString := (fun s => s ++ [space])^[17] []

/-- From `main.go`: `progressbar`; `prog / 6` is Go's integer division, which
truncates toward zero. -/
def progressbar (prog : Int) (paused : Bool) : List Op :=
  [Op.Goto 1 0]
  ++ (if paused then [Op.Print blankRow, Op.Sleep 480]
      else forLoop 17 [Op.Print [space], Op.Sleep 30])
  ++ [Op.Goto 1 0]
  ++ (if paused then forLoop (Int.tdiv prog 6) [Op.WriteData 0xFF] ++ [Op.Sleep 480]
      else forLoop (Int.tdiv prog 6) [Op.WriteData 0xFF, Op.Sleep 30])

/-! ## float64 -/

/-- A float64 value: a finite number with sign `neg` and magnitude `mag` (a
non-negative rational; both zeros are included), an infinity, or NaN. -/
inductive F64 where
  | num (neg : Bool) (mag : ℚ)
  | inf (neg : Bool)
  | nan
  deriving DecidableEq

/-- The exponent of the binade of a magnitude, not below that of the subnormals. -/
def binade (x : ℚ) : ℤ := max (Int.log 2 x) (-1022)

/-- The spacing of binary64 numbers (53-bit significand) in the binade of `x`. -/
def ulp (x : ℚ) : ℚ := 2 ^ (binade x - 52)

/-- Rounding to the nearest integer, ties to even. -/
def roundHalfEven (y : ℚ) : ℤ :=
  if y - ⌊y⌋ < 1 / 2 then ⌊y⌋
  else if 1 / 2 < y - ⌊y⌋ then ⌊y⌋ + 1
  else if ⌊y⌋ % 2 = 0 then ⌊y⌋
  else ⌊y⌋ + 1

/-- Round-to-nearest-even of a magnitude to the binary64 grid (exponent unbounded
above). -/
def rne (x : ℚ) : ℚ := roundHalfEven (x / ulp x) * ulp x

/-- The binary64 result of an operation whose exact result has sign `neg` and
magnitude `x`: the rounded magnitude, or an infinity on overflow. -/
def F64.round (neg : Bool) (x : ℚ) : F64 :=
  if rne x < 2 ^ 1024 then F64.num neg (rne x) else F64.inf neg

/-- The float64 division `x / y`. -/
def F64.div : F64 → F64 → F64
  | F64.nan, _ => F64.nan
  | _, F64.nan => F64.nan
  | F64.inf _, F64.inf _ => F64.nan
  | F64.inf s, F64.num t _ => F64.inf (xor s t)
  | F64.num s _, F64.inf t => F64.num (xor s t) 0
  | F64.num s a, F64.num t b =>
    if b = 0 then (if a = 0 then F64.nan else F64.inf (xor s t))
    else F64.round (xor s t) (a / b)

/-- The float64 multiplication `x * y`. -/
def F64.mul : F64 → F64 → F64
  | F64.nan, _ => F64.nan
  | _, F64.nan => F64.nan
  | F64.inf s, F64.inf t => F64.inf (xor s t)
  | F64.inf s, F64.num t b => if b = 0 then F64.nan else F64.inf (xor s t)
  | F64.num s a, F64.inf t => if a = 0 then F64.nan else F64.inf (xor s t)
  | F64.num s a, F64.num t b => F64.round (xor s t) (a * b)

/-- What the Go specification leaves to the implementation: the width of `int`
and the result of converting to `int` a float64 that `int` cannot represent. -/
structure Arch where
  intBits : Nat
  convInvalid : F64 → Int
  bits_ok : intBits = 32 ∨ intBits = 64

/-- The conversion `int(x)` of a float64: the fraction is discarded (truncation
toward zero); a value that `int` cannot represent converts to an
implementation-dependent value. -/
def toInt (arch : Arch) (x : F64) : Int :=
  match x with
  | F64.num neg mag =>
    if -(2 ^ (arch.intBits - 1)) ≤ (if neg then -⌊mag⌋ else ⌊mag⌋)
        ∧ (if neg then -⌊mag⌋ else ⌊mag⌋) < 2 ^ (arch.intBits - 1)
    then (if neg then -⌊mag⌋ else ⌊mag⌋)
    else arch.convInvalid x
  | _ => arch.convInvalid x

/-! ## The render tick -/

/-- The fields of `Item` that `main` reads. -/
structure Item where
  DurationMs : F64
  Name : GoString

/-- The fields of `AutoGenerated` that `main` reads. -/
structure AutoGenerated where
  ProgressMs : F64
  Item : Item
  IsPlaying : Bool

/-- The argument `int((details.ProgressMs/details.Item.DurationMs)*100)` of the call of
`progressbar`. -/
def percentage (arch : Arch) (details : AutoGenerated) : Int :=
  toInt arch (F64.mul (F64.div details.ProgressMs details.Item.DurationMs) (F64.num false 100))

/-- From `main.go`, lines 219 to 221: the scroll offset after the wrap check
`if offset >= len(details.Item.Name)-13 { offset = 0 }`. -/
def wrap (offset : Int) (name : GoString) : Int :=
  if offset ≥ len name - 13 then 0 else offset

/-- From `main.go`, the body of `case <-ticker.C` after `decode.Decode(&details)` has
returned: `offset` is the scroll offset, `details` the decoded value and `err`
tells whether `Decode` returned an error. The result is the new scroll offset
and the display calls of the tick, or `none` when the tick panics. -/
def tick (arch : Arch) (offset : Int) (details : AutoGenerated) (err : Bool) :
    Option (Int × List Op) :=
  let offset := wrap offset details.Item.Name
  if err then
    some (offset,
      [Op.Goto 0 0, Op.Print (lit "Cannot connect, "),
       Op.Goto 1 0, Op.Print (lit "Try play a song.")])
  else
    match substring details.Item.Name offset 14 with
    | none => none
    | some cut =>
      some (offset + 1,
        [Op.Goto 0 0, Op.Print (pad cut 14)]
        ++ progressbar (percentage arch details) (!details.IsPlaying)
        ++ [Op.Goto 0 14, Op.WriteData 0b01111100,
            Op.WriteData (if !details.IsPlaying then 0b00000001 else 0b00000000)])

/-- What one tick receives from the status query. -/
structure Status where
  details : AutoGenerated
  err : Bool

/-- Consecutive ticks of the loop of `main`, one per element of the list: the final
scroll offset and the display calls of every tick, or `none` when a tick panics. -/
def run (arch : Arch) : Int → List Status → Option (Int × List (List Op))
  | offset, [] => some (offset, [])
  | offset, st :: rest =>
    match tick arch offset st.details st.err with
    | none => none
    | some (offset1, ops) =>
      match run arch offset1 rest with
      | none => none
      | some (last, frames) => some (last, ops :: frames)

/-- A 64-bit platform on which an unrepresentable conversion yields the smallest
`int` (the behaviour of the amd64 conversion instruction). -/
def amd64 : Arch := ⟨64, fun _ => -(2 ^ 63), Or.inr rfl⟩

/-- The value of `AutoGenerated{}`: what `details` holds when the decoder has set no
field. -/
def zeroDetails : AutoGenerated := ⟨F64.num false 0, ⟨F64.num false 0, []⟩, false⟩

/-- The 14 bytes of the slice `name[k : k+14]` when `k + 14 <= len(name)` (fewer near
the end of the name). -/
def window (name : GoString) (k : Nat) : GoString := (name.drop k).take 14

/-- The 14 bytes of the UTF-8 encoding of a name of seven letters e-acute
(U+00E9, encoded 0xC3 0xA9). -/
def accents : GoString :=
  [0xC3, 0xA9, 0xC3, 0xA9, 0xC3, 0xA9, 0xC3, 0xA9, 0xC3, 0xA9, 0xC3, 0xA9, 0xC3, 0xA9]

/-- A status whose decode succeeded. -/
def playing (name : GoString) : Status :=
  ⟨⟨F64.num false 30000, ⟨F64.num false 200000, name⟩, true⟩, false⟩

/-- A name of 17 ASCII bytes. -/
def bohemian : GoString := lit "Bohemian Rhapsody"

/-- The number of solid blocks (bytes 0xFF) among the display calls. -/
def solidBlocks (ops : List Op) : Nat := ops.count (Op.WriteData 0xFF)

/-- A decoded value with non-negative finite progress `pm` and duration `dm`. -/
def snapshot (pm dm : ℚ) (name : GoString) (isPlaying : Bool) : AutoGenerated :=
  ⟨F64.num false pm, ⟨F64.num false dm, name⟩, isPlaying⟩

/-- The snapshot `{isPlaying: true, progressMs: 30000, durationMs: 200000,
trackName: "Fortunate Son"}`. -/
def fortunate : AutoGenerated :=
  ⟨F64.num false 30000, ⟨F64.num false 200000, lit "Fortunate Son"⟩, true⟩

/-- The display calls of the fallback message. -/
def fallback : List Op :=
  [Op.Goto 0 0, Op.Print (lit "Cannot connect, "), Op.Goto 1 0, Op.Print (lit "Try play a song.")]

/-- The 2 bytes of the UTF-8 encoding of the one-letter name e-acute (U+00E9). -/
def eacute : GoString := [0xC3, 0xA9]

/-- The 16 bytes of the UTF-8 encoding of the 13-letter name "Noel a Quebec" written
with e-diaeresis (0xC3 0xAB), a-grave (0xC3 0xA0) and e-acute (0xC3 0xA9). -/
def noel : GoString :=
  [0x4E, 0x6F, 0xC3, 0xAB, 0x6C, 0x20, 0xC3, 0xA0, 0x20, 0x51, 0x75, 0xC3, 0xA9, 0x62, 0x65, 0x63]

/-- What reaches the display: a cursor move or one character cell written. -/
inductive Cell where
  | cursor (row col : Nat)
  | char (b : UInt8)
  deriving DecidableEq

/-- The cursor moves and characters that a sequence of calls sends to the display,
in order and without the delays; `Print` writes the bytes of its string one
after the other. -/
def written : List Op → List Cell
  | [] => []
  | Op.Goto row col :: ops => Cell.cursor row col :: written ops
  | Op.Print s :: ops => s.map Cell.char ++ written ops
  | Op.WriteData b :: ops => Cell.char b :: written ops
  | Op.Sleep _ :: ops => written ops

/-- The delays (milliseconds) of a sequence of calls, in order. -/
def delays : List Op → List Nat
  | [] => []
  | Op.Sleep ms :: ops => ms :: delays ops
  | _ :: ops => delays ops

/-! ## Buttons -/

/-- Modelled from the spec: the debouncer of the package `github.com/a-h/debounce`
(`debounce.Button` and `SetState`), whose source is not part of `src/`. Spec 3
and 4.1: the state holds `stablePressed`; the wiring polarity is fixed at
creation. -/
structure Debouncer where
  normallyClosed : Bool
  stablePressed : Bool
  deriving DecidableEq

/-- Modelled from the spec: `debounce.Button(onClick, normallyClosed)`, whose source
is not part of `src/`: a debouncer created at startup, released. -/
def Button (normallyClosed : Bool) : Debouncer := ⟨normallyClosed, false⟩

/-- Modelled from the spec: `SetState` of the package `github.com/a-h/debounce`,
whose source is not part of `src/`. Spec 4.1: every call compares the raw
level, read through the polarity, to the stored `stablePressed`; a transition
from released to pressed is the only edge that emits a click (the `Bool` of
the result), release transitions are silent. -/
def Debouncer.SetState (d : Debouncer) (rawLevel : Bool) : Debouncer × Bool :=
  if xor rawLevel d.normallyClosed = d.stablePressed then (d, false)
  else (⟨d.normallyClosed, xor rawLevel d.normallyClosed⟩, xor rawLevel d.normallyClosed)

/-- The commands run through `exec.Command("spotify", ...)` by `playpause`,
`forward`, `back` and `heart`. -/
inductive Command where
  | toggle
  | next
  | previous
  | save
  deriving DecidableEq

/-- From `main.go`: the four debouncers `swPlayPause`, `swForward`, `swBackward`,
`swHeart`. -/
structure Buttons where
  swPlayPause : Debouncer
  swForward : Debouncer
  swBackward : Debouncer
  swHeart : Debouncer

/-- The four pin levels of one sampling: `rpio.ReadPin(gpio) == rpio.High`. -/
structure Pins where
  gpioPlayPause : Bool
  gpioForward : Bool
  gpioBackward : Bool
  gpioHeart : Bool

/-- From `main.go`: the buttons as created in `main`, all with
`normallyClosed := false`. -/
def buttons : Buttons :=
  ⟨Button false, Button false, Button false, Button false⟩

/-- The command that a click callback runs, if the click fired. -/
def fire (clicked : Bool) (c : Command) : List Command := if clicked then [c] else []

/-- From `main.go`: one iteration of the loop of `getgpio`: the four `SetState`
calls in order, each click callback running its command synchronously. -/
def getgpioStep (b : Buttons) (p : Pins) : Buttons × List Command :=
  let r1 := b.swPlayPause.SetState p.gpioPlayPause
  let r2 := b.swForward.SetState p.gpioForward
  let r3 := b.swBackward.SetState p.gpioBackward
  let r4 := b.swHeart.SetState p.gpioHeart
  (⟨r1.1, r2.1, r3.1, r4.1⟩,
   fire r1.2 Command.toggle ++ fire r2.2 Command.next
     ++ fire r3.2 Command.previous ++ fire r4.2 Command.save)

/-- From `main.go`: the loop of `getgpio` over a sequence of samplings: the commands
run at each sampling. -/
def getgpio : Buttons → List Pins → List (List Command)
  | _, [] => []
  | b, p :: rest => (getgpioStep b p).2 :: getgpio (getgpioStep b p).1 rest

end SpotifyLcd

namespace SpotifyLcd

/-! ## Strings: slicing, rune counting, padding -/

theorem runeCountFrom_le (s : GoString) : ∀ skip, runeCountFrom skip s ≤ s.length := by
  induction s with
  | nil => intro skip; simp [runeCountFrom]
  | cons c rest ih =>
    intro skip
    cases skip with
    | zero =>
      have := ih (runeSize c rest - 1)
      simp only [runeCountFrom, List.length_cons]
      omega
    | succ k =>
      have := ih k
      simp only [runeCountFrom, List.length_cons]
      omega

theorem runeCount_le (s : GoString) : RuneCountInString s ≤ s.length :=
  runeCountFrom_le s 0

theorem runeCount_ascii (s : GoString) (h : ∀ c ∈ s, c < 0x80) :
    RuneCountInString s = s.length := by
  unfold RuneCountInString
  induction s with
  | nil => simp [runeCountFrom]
  | cons c rest ih =>
    have hc : c < 0x80 := h c (List.mem_cons_self _ _)
    have hrest : ∀ b ∈ rest, b < 0x80 := fun b hb => h b (List.mem_cons_of_mem _ hb)
    simp [runeCountFrom, runeSize, hc, ih hrest]

theorem pad_of_full (s : GoString) (n : Nat) (h : n ≤ RuneCountInString s) : pad s n = s := by
  simp [pad, Nat.sub_eq_zero_of_le h]

theorem pad_ascii (s : GoString) (h : ∀ c ∈ s, c < 0x80) (hlen : s.length = 14) :
    pad s 14 = s := by
  apply pad_of_full
  rw [runeCount_ascii s h, hlen]

end SpotifyLcd

namespace SpotifyLcd

theorem first_cases (c : UInt8) (t : Nat × UInt8 × UInt8) (h : first c = some t) :
    t = (2, 0x80, 0xBF) ∨ t = (3, 0xA0, 0xBF) ∨ t = (3, 0x80, 0x9F) ∨ t = (3, 0x80, 0xBF)
      ∨ t = (4, 0x90, 0xBF) ∨ t = (4, 0x80, 0xBF) ∨ t = (4, 0x80, 0x8F) := by
  unfold first at h
  split_ifs at h <;> simp_all

theorem runeSize_le (c : UInt8) (rest : GoString) : runeSize c rest ≤ 1 + rest.length := by
  unfold runeSize
  split
  · omega
  · split
    · omega
    · next size lo hi hf =>
      split
      · omega
      · next hsz =>
        rcases first_cases c _ hf with h | h | h | h | h | h | h <;>
          simp only [Prod.mk.injEq] at h <;> obtain ⟨h1, h2, h3⟩ := h <;> subst h1 h2 h3 <;>
          (repeat' split) <;> simp_all

theorem runeSize_pos (c : UInt8) (rest : GoString) : 1 ≤ runeSize c rest := by
  unfold runeSize
  repeat' split
  all_goals omega

theorem runeSize_append_spaces (c : UInt8) (rest : GoString) (n : Nat) :
    runeSize c (rest ++ List.replicate n space) = runeSize c rest := by
  unfold runeSize
  split
  · rfl
  · split
    · rfl
    · next size lo hi hf =>
      rcases first_cases c _ hf with h | h | h | h | h | h | h <;>
        simp only [Prod.mk.injEq] at h <;> obtain ⟨h1, h2, h3⟩ := h <;> subst h1 h2 h3 <;>
        rcases rest with _ | ⟨a, _ | ⟨b, _ | ⟨d, r⟩⟩⟩ <;>
        rcases n with _ | _ | _ | n <;>
        simp [List.replicate, space] <;>
        (try (split_ifs <;> first | rfl | omega))

theorem runeCountFrom_spaces (n : Nat) : runeCountFrom 0 (List.replicate n space) = n := by
  have h := runeCount_ascii (List.replicate n space) (by
    intro c hc
    rw [List.eq_of_mem_replicate hc]
    decide)
  simpa [RuneCountInString] using h

theorem runeCountFrom_append_spaces (s : GoString) (n : Nat) :
    ∀ skip, skip ≤ s.length →
      runeCountFrom skip (s ++ List.replicate n space) = runeCountFrom skip s + n := by
  induction s with
  | nil =>
    intro skip h
    have h0 : skip = 0 := by simpa using h
    subst h0
    simp [runeCountFrom_spaces, runeCountFrom]
  | cons c rest ih =>
    intro skip h
    cases skip with
    | zero =>
      have hle := runeSize_le c rest
      have hsz := runeSize_append_spaces c rest n
      have hrec := ih (runeSize c rest - 1) (by omega)
      show runeCountFrom (runeSize c (rest ++ List.replicate n space) - 1)
          (rest ++ List.replicate n space) + 1 = runeCountFrom (runeSize c rest - 1) rest + 1 + n
      rw [hsz, hrec]
      omega
    | succ k =>
      show runeCountFrom k (rest ++ List.replicate n space) = runeCountFrom k rest + n
      exact ih k (by simpa using h)

theorem runeCount_pad (s : GoString) (n : Nat) (h : RuneCountInString s ≤ n) :
    RuneCountInString (pad s n) = n := by
  unfold pad RuneCountInString at *
  rw [runeCountFrom_append_spaces s _ 0 (Nat.zero_le _)]
  omega

end SpotifyLcd

namespace SpotifyLcd

/-! ## The scroll offset and the window -/

theorem len_nonneg (s : GoString) : 0 ≤ len s := by
  unfold len; omega

theorem wrap_cases (offset : Int) (name : GoString) :
    (len name - 13 ≤ offset ∧ wrap offset name = 0)
      ∨ (offset < len name - 13 ∧ wrap offset name = offset) := by
  unfold wrap
  split_ifs with h
  · exact Or.inl ⟨h, rfl⟩
  · exact Or.inr ⟨by omega, rfl⟩

theorem wrap_bounds (offset : Int) (name : GoString) (h : 0 ≤ offset) :
    0 ≤ wrap offset name ∧ wrap offset name ≤ len name := by
  have hl := len_nonneg name
  rcases wrap_cases offset name with ⟨_, h2⟩ | ⟨h1, h2⟩ <;> rw [h2] <;> constructor <;> omega

theorem substring_window (s : GoString) (k : Int) (h0 : 0 ≤ k) (hk : k ≤ len s) :
    substring s k 14 = some ((s.drop k.toNat).take 14) := by
  unfold substring slice
  have hlen : len s = (s.length : Int) := rfl
  rw [if_neg (by omega)]
  by_cases hto : k + 14 > len s
  · simp only [hto, if_true]
    rw [if_pos ⟨h0, hk, le_refl _⟩]
    congr 1
    rw [List.take_of_length_le, List.take_of_length_le]
    · rw [List.length_drop]; omega
    · rw [List.length_drop]; omega
  · simp only [hto, if_false]
    rw [if_pos ⟨h0, by omega, by omega⟩]
    congr 2
    omega

theorem window_length_le (s : GoString) (k : Nat) : ((s.drop k).take 14).length ≤ 14 := by
  rw [List.length_take]; omega

theorem window_length_eq (s : GoString) (k : Nat) (h : k + 14 ≤ s.length) :
    ((s.drop k).take 14).length = 14 := by
  rw [List.length_take, List.length_drop]; omega

/-- The display calls of a tick that renders the window `cut`. -/
theorem tick_success (arch : Arch) (offset : Int) (details : AutoGenerated) (h : 0 ≤ offset) :
    tick arch offset details false
      = some (wrap offset details.Item.Name + 1,
          [Op.Goto 0 0,
           Op.Print (pad ((details.Item.Name.drop (wrap offset details.Item.Name).toNat).take 14) 14)]
          ++ progressbar (percentage arch details) (!details.IsPlaying)
          ++ [Op.Goto 0 14, Op.WriteData 0b01111100,
              Op.WriteData (if !details.IsPlaying then 0b00000001 else 0b00000000)]) := by
  obtain ⟨hw0, hw1⟩ := wrap_bounds offset details.Item.Name h
  simp only [tick, substring_window _ _ hw0 hw1]
  rfl

theorem tick_failure (arch : Arch) (offset : Int) (details : AutoGenerated) :
    tick arch offset details true
      = some (wrap offset details.Item.Name,
          [Op.Goto 0 0, Op.Print (lit "Cannot connect, "),
           Op.Goto 1 0, Op.Print (lit "Try play a song.")]) := by
  simp [tick]

end SpotifyLcd

namespace SpotifyLcd

/-! ## The failure path -/

/-- C6: on a tick whose status decode returns an error, the display calls are exactly
`Goto(0,0)`, `Print("Cannot connect, ")`, `Goto(1,0)`, `Print("Try play a song.")`,
whatever the offset and the (partially) decoded value are; both texts have
exactly 16 characters. -/
theorem failure_tick_display (arch : Arch) (offset : Int) (details : AutoGenerated) :
    (tick arch offset details true).map Prod.snd
        = some [Op.Goto 0 0, Op.Print (lit "Cannot connect, "),
                Op.Goto 1 0, Op.Print (lit "Try play a song.")]
      ∧ (lit "Cannot connect, ").length = 16
      ∧ (lit "Try play a song.").length = 16 := by
  refine ⟨?_, by decide, by decide⟩
  rw [tick_failure]
  rfl

/-- C5, counterexample: two successful ticks of a 17-byte name bring the scroll offset
from 0 to 2; a tick whose decode then fails and leaves `details` at its zero
value ends with the offset at 0, not at 2. -/
theorem failure_tick_resets_offset :
    (run amd64 0 [playing bohemian, playing bohemian]).map Prod.fst = some 2
      ∧ (tick amd64 2 zeroDetails true).map Prod.fst = some 0
      ∧ (tick amd64 2 zeroDetails true).map Prod.fst ≠ some 2 := by
  refine ⟨?_, ?_, ?_⟩
  · simp only [run, playing, tick_success amd64 0 _ (le_refl _)]
    rw [show wrap 0 bohemian + 1 = 1 from by decide,
      tick_success amd64 1 _ (by decide)]
    decide
  · simp [tick_failure, zeroDetails, wrap, len]
  · simp [tick_failure, zeroDetails, wrap, len]

/-- C5, amended: on a tick whose decode returns an error the offset is not advanced;
the offset after the tick is the offset after the wrap check against the name
left in `details`: 0 when `offset >= len(name) - 13`, the prior offset
otherwise. -/
theorem failure_tick_offset (arch : Arch) (offset : Int) (details : AutoGenerated) :
    (tick arch offset details true).map Prod.fst
      = some (if offset ≥ len details.Item.Name - 13 then 0 else offset) := by
  rw [tick_failure]
  rfl

end SpotifyLcd

namespace SpotifyLcd

/-! ## Runs of ticks -/

theorem run_cons (arch : Arch) (offset : Int) (st : Status) (rest : List Status)
    (offset1 : Int) (ops : List Op) (last : Int) (frames : List (List Op))
    (h1 : tick arch offset st.details st.err = some (offset1, ops))
    (h2 : run arch offset1 rest = some (last, frames)) :
    run arch offset (st :: rest) = some (last, ops :: frames) := by
  simp [run, h1, h2]

theorem tick_total (arch : Arch) (offset : Int) (st : Status) (h : 0 ≤ offset) :
    ∃ offset1 ops, tick arch offset st.details st.err = some (offset1, ops) ∧ 0 ≤ offset1 := by
  have hw := wrap_bounds offset st.details.Item.Name h
  cases herr : st.err with
  | true => exact ⟨_, _, tick_failure arch offset st.details, hw.1⟩
  | false => exact ⟨_, _, tick_success arch offset st.details h, by omega⟩

theorem run_total (arch : Arch) (statuses : List Status) :
    ∀ offset : Int, 0 ≤ offset →
      ∃ last frames, run arch offset statuses = some (last, frames)
        ∧ frames.length = statuses.length ∧ 0 ≤ last := by
  induction statuses with
  | nil => intro offset h; exact ⟨offset, [], rfl, rfl, h⟩
  | cons st rest ih =>
    intro offset h
    obtain ⟨offset1, ops, h1, h1pos⟩ := tick_total arch offset st h
    obtain ⟨last, frames, h2, hlen, hpos⟩ := ih offset1 h1pos
    exact ⟨last, ops :: frames, run_cons arch offset st rest offset1 ops last frames h1 h2,
      by simp [hlen], hpos⟩

/-- C10: started at offset 0, the loop gets through every sequence of ticks, whatever
the names and whichever decodes fail, without a panic; the offset it reaches is
`>= 0`, and for whatever name the next tick decodes, the offset passed to
`substring` lies in `0 .. len(name)`, the bounds of the slice satisfy
`0 <= from <= to <= len(name)`, and `substring` returns a window of at most 14
bytes. -/
theorem run_never_panics (arch : Arch) (statuses : List Status) :
    ∃ last frames, run arch 0 statuses = some (last, frames)
      ∧ frames.length = statuses.length
      ∧ 0 ≤ last
      ∧ ∀ name : GoString,
          0 ≤ wrap last name
          ∧ wrap last name ≤ min (wrap last name + 14) (len name)
          ∧ min (wrap last name + 14) (len name) ≤ len name
          ∧ ∃ cut, substring name (wrap last name) 14 = some cut ∧ cut.length ≤ 14 := by
  obtain ⟨last, frames, hrun, hlen, hpos⟩ := run_total arch statuses 0 (le_refl _)
  refine ⟨last, frames, hrun, hlen, hpos, ?_⟩
  intro name
  obtain ⟨hw0, hw1⟩ := wrap_bounds last name hpos
  refine ⟨hw0, ?_, ?_, _, substring_window name _ hw0 hw1, window_length_le name _⟩
  · exact le_min (by omega) hw1
  · exact min_le_right _ _

end SpotifyLcd

namespace SpotifyLcd

/-! ## Long names: the cyclic windows -/

theorem wrap_long (name : GoString) (o : Nat) (hN : 14 ≤ name.length)
    (ho : o ≤ name.length - 13) :
    wrap (o : Int) name = ((o % (name.length - 13) : Nat) : Int) := by
  have hlen : len name = (name.length : Int) := rfl
  rcases Nat.lt_or_ge o (name.length - 13) with h | h
  · rw [Nat.mod_eq_of_lt h]
    rcases wrap_cases (o : Int) name with ⟨h1, _⟩ | ⟨_, h2⟩
    · omega
    · exact h2
  · have ho2 : o = name.length - 13 := le_antisymm ho h
    rw [ho2, Nat.mod_self]
    rcases wrap_cases ((name.length - 13 : Nat) : Int) name with ⟨_, h2⟩ | ⟨h1, _⟩
    · exact h2
    · omega

theorem window_in_name (name : GoString) (k : Nat) (c : UInt8) (h : c ∈ window name k) :
    c ∈ name :=
  List.mem_of_mem_drop (List.mem_of_mem_take h)

theorem slice_window (name : GoString) (k : Nat) (h : k + 14 ≤ name.length) :
    slice name (k : Int) ((k : Int) + 14) = some (window name k) := by
  unfold slice window
  have hlen : len name = (name.length : Int) := rfl
  rw [if_pos ⟨by omega, by omega, by omega⟩]
  have h14 : ((k : Int) + 14 - (k : Int)).toNat = 14 := by
    rw [add_sub_cancel_left]; rfl
  rw [h14, Int.toNat_ofNat]

theorem run_long (arch : Arch) (name : GoString) (hN : 14 ≤ name.length)
    (statuses : List Status) :
    (∀ st ∈ statuses, st.err = false ∧ st.details.Item.Name = name) →
    ∀ o : Nat, o ≤ name.length - 13 →
      ∃ last frames, run arch (o : Int) statuses = some (last, frames)
        ∧ ∀ t, t < statuses.length →
            ∃ rest, frames[t]? = some (Op.Goto 0 0
              :: Op.Print (pad (window name ((o + t) % (name.length - 13))) 14) :: rest) := by
  induction statuses with
  | nil =>
    intro _ o _
    exact ⟨_, [], rfl, fun t ht => absurd ht (by simp)⟩
  | cons st rest ih =>
    intro hall o ho
    obtain ⟨herr, hname⟩ := hall st (List.mem_cons_self _ _)
    have hP : 0 < name.length - 13 := by omega
    have hk : o % (name.length - 13) < name.length - 13 := Nat.mod_lt _ hP
    have htick := tick_success arch (o : Int) st.details (by omega)
    rw [hname, wrap_long name o hN ho] at htick
    obtain ⟨last, frames, hrun, hframes⟩ :=
      ih (fun s hs => hall s (List.mem_cons_of_mem _ hs)) (o % (name.length - 13) + 1) (by omega)
    refine ⟨last, _, run_cons arch _ st rest _ _ last frames (by rw [herr]; exact htick)
      (by exact_mod_cast hrun), ?_⟩
    intro t ht
    cases t with
    | zero =>
      refine ⟨progressbar (percentage arch st.details) (!st.details.IsPlaying)
          ++ [Op.Goto 0 14, Op.WriteData 0b01111100,
              Op.WriteData (if !st.details.IsPlaying then 0b00000001 else 0b00000000)], ?_⟩
      simp only [List.getElem?_cons_zero, Nat.add_zero, Int.toNat_ofNat, window]
      rfl
    | succ t =>
      obtain ⟨r, hr⟩ := hframes t (by simpa using ht)
      refine ⟨r, ?_⟩
      rw [List.getElem?_cons_succ, hr]
      have hmod : (o % (name.length - 13) + 1 + t) % (name.length - 13)
          = (o + (t + 1)) % (name.length - 13) := by
        rw [Nat.add_assoc, Nat.mod_add_mod, Nat.add_comm 1 t]
      rw [hmod]

end SpotifyLcd

namespace SpotifyLcd

/-- C1, counterexample: the name of seven letters e-acute has 14 bytes, so `N - 13 = 1`
and the window of tick 0 is `name[0:14]`, the whole name; the tick prints the
name followed by 7 spaces, because `pad` counts 7 runes, and not the window. -/
theorem accents_window_padded :
    len accents = 14
      ∧ slice accents 0 (0 + 14) = some accents
      ∧ (tick amd64 0 (playing accents).details false).map (fun r => r.2.take 2)
          = some [Op.Goto 0 0, Op.Print (accents ++ List.replicate 7 space)]
      ∧ accents ++ List.replicate 7 space ≠ accents := by
  refine ⟨by decide, by decide, ?_, by decide⟩
  rw [tick_success amd64 0 _ (le_refl _)]
  decide

/-- C1, amended: for a name of `N >= 14` bytes, starting from offset 0 and rendering
the same name on consecutive successful ticks, tick `t` prints
`pad(name[k : k+14], 14)` with `k = t mod (N - 13)`: the 14-byte window
followed by one space for every rune that the window falls short of 14; for a
name of ASCII bytes this is exactly the window `name[k : k+14]`. -/
theorem long_name_cycle (arch : Arch) (name : GoString) (statuses : List Status)
    (hN : 14 ≤ len name)
    (hall : ∀ st ∈ statuses, st.err = false ∧ st.details.Item.Name = name) :
    ∃ last frames, run arch 0 statuses = some (last, frames)
      ∧ ∀ t, t < statuses.length →
          slice name ((t % (name.length - 13) : Nat) : Int)
              (((t % (name.length - 13) : Nat) : Int) + 14)
            = some (window name (t % (name.length - 13)))
          ∧ (window name (t % (name.length - 13))).length = 14
          ∧ (∃ rest, frames[t]? = some (Op.Goto 0 0
              :: Op.Print (pad (window name (t % (name.length - 13))) 14) :: rest))
          ∧ pad (window name (t % (name.length - 13))) 14
              = window name (t % (name.length - 13))
                ++ List.replicate
                    (14 - RuneCountInString (window name (t % (name.length - 13)))) space
          ∧ ((∀ c ∈ name, c < 0x80) →
              pad (window name (t % (name.length - 13))) 14
                = window name (t % (name.length - 13))) := by
  have hlen : len name = (name.length : Int) := rfl
  have hN2 : 14 ≤ name.length := by omega
  obtain ⟨last, frames, hrun, hframes⟩ :=
    run_long arch name hN2 statuses hall 0 (Nat.zero_le _)
  refine ⟨last, frames, by simpa using hrun, ?_⟩
  intro t ht
  have hk : t % (name.length - 13) < name.length - 13 := Nat.mod_lt _ (by omega)
  have hwlen := window_length_eq name (t % (name.length - 13)) (by omega)
  refine ⟨slice_window name _ (by omega), hwlen, ?_, rfl, ?_⟩
  · simpa using hframes t ht
  · intro hascii
    exact pad_ascii _ (fun c hc => hascii c (window_in_name name _ c hc)) hwlen

theorem long_name_cycle_witness :
    ∃ last frames, run amd64 0 (List.replicate 6 (playing bohemian)) = some (last, frames)
      ∧ ∀ t, t < (List.replicate 6 (playing bohemian)).length →
          slice bohemian ((t % (bohemian.length - 13) : Nat) : Int)
              (((t % (bohemian.length - 13) : Nat) : Int) + 14)
            = some (window bohemian (t % (bohemian.length - 13)))
          ∧ (window bohemian (t % (bohemian.length - 13))).length = 14
          ∧ (∃ rest, frames[t]? = some (Op.Goto 0 0
              :: Op.Print (pad (window bohemian (t % (bohemian.length - 13))) 14) :: rest))
          ∧ pad (window bohemian (t % (bohemian.length - 13))) 14
              = window bohemian (t % (bohemian.length - 13))
                ++ List.replicate
                    (14 - RuneCountInString (window bohemian (t % (bohemian.length - 13)))) space
          ∧ ((∀ c ∈ bohemian, c < 0x80) →
              pad (window bohemian (t % (bohemian.length - 13))) 14
                = window bohemian (t % (bohemian.length - 13))) :=
  long_name_cycle amd64 bohemian (List.replicate 6 (playing bohemian)) (by decide)
    (fun st hst => by rw [List.eq_of_mem_replicate hst]; exact ⟨rfl, rfl⟩)

end SpotifyLcd

namespace SpotifyLcd

/-! ## The progress bar -/

theorem written_append (a b : List Op) : written (a ++ b) = written a ++ written b := by
  induction a with
  | nil => rfl
  | cons op rest ih => cases op <;> simp [written, ih]

theorem delays_append (a b : List Op) : delays (a ++ b) = delays a ++ delays b := by
  induction a with
  | nil => rfl
  | cons op rest ih => cases op <;> simp [delays, ih]

theorem written_loop (n : Nat) (body : List Op) :
    written (List.replicate n body).flatten = (List.replicate n (written body)).flatten := by
  induction n with
  | zero => rfl
  | succ n ih => simp [List.replicate_succ, written_append, ih]

theorem delays_loop (n : Nat) (body : List Op) :
    delays (List.replicate n body).flatten = (List.replicate n (delays body)).flatten := by
  induction n with
  | zero => rfl
  | succ n ih => simp [List.replicate_succ, delays_append, ih]

theorem flatten_replicate_singleton {α : Type} (n : Nat) (a : α) :
    (List.replicate n [a]).flatten = List.replicate n a := by
  induction n with
  | zero => rfl
  | succ n ih => simp [List.replicate_succ, ih]

theorem flatten_replicate_nil {α : Type} (n : Nat) :
    (List.replicate n ([] : List α)).flatten = [] := by
  induction n with
  | zero => rfl
  | succ n ih => simp [List.replicate_succ, ih]

theorem written_progressbar (prog : Int) (paused : Bool) :
    written (progressbar prog paused)
      = [Cell.cursor 1 0] ++ List.replicate 17 (Cell.char space) ++ [Cell.cursor 1 0]
        ++ List.replicate (Int.tdiv prog 6).toNat (Cell.char 0xFF) := by
  cases paused
  · simp only [progressbar, forLoop, written_append, written_loop, Bool.false_eq_true, if_false]
    have h1 : written [Op.Print [space], Op.Sleep 30] = [Cell.char space] := rfl
    have h2 : written [Op.WriteData 0xFF, Op.Sleep 30] = [Cell.char 0xFF] := rfl
    rw [h1, h2, flatten_replicate_singleton, flatten_replicate_singleton]
    rfl
  · simp only [progressbar, forLoop, written_append, written_loop, if_true]
    have h2 : written [Op.WriteData 0xFF] = [Cell.char 0xFF] := rfl
    rw [h2, flatten_replicate_singleton]
    have h3 : written [Op.Print blankRow, Op.Sleep 480] = List.replicate 17 (Cell.char space) := by
      decide
    have h4 : written [Op.Sleep 480] = [] := rfl
    rw [h3, h4]
    simp
    rfl

theorem delays_progressbar_paused (prog : Int) :
    delays (progressbar prog true) = [480, 480] := by
  simp only [progressbar, forLoop, delays_append, delays_loop, if_true]
  have h2 : delays [Op.WriteData 0xFF] = [] := rfl
  rw [h2, flatten_replicate_nil]
  rfl

theorem delays_progressbar_playing (prog : Int) :
    delays (progressbar prog false) = List.replicate (17 + (Int.tdiv prog 6).toNat) 30 := by
  simp only [progressbar, forLoop, delays_append, delays_loop, Bool.false_eq_true, if_false]
  have h1 : delays [Op.Print [space], Op.Sleep 30] = [30] := rfl
  have h2 : delays [Op.WriteData 0xFF, Op.Sleep 30] = [30] := rfl
  rw [h1, h2, flatten_replicate_singleton, flatten_replicate_singleton, List.replicate_add]
  rfl

/-- C9: for every percentage `prog`, `progressbar` sends the same cursor moves and
characters to the display whether paused or not: cursor to (1,0), 17 blanks,
cursor to (1,0), then `prog / 6` bytes 0xFF (none when `prog / 6 <= 0`); the two
modes differ only in the delays: two delays of 480 ms when paused, one delay of
30 ms after every character when playing. -/
theorem progressbar_same_drawing (prog : Int) :
    written (progressbar prog true) = written (progressbar prog false)
      ∧ written (progressbar prog false)
          = [Cell.cursor 1 0] ++ List.replicate 17 (Cell.char space) ++ [Cell.cursor 1 0]
            ++ List.replicate (Int.tdiv prog 6).toNat (Cell.char 0xFF)
      ∧ delays (progressbar prog true) = [480, 480]
      ∧ delays (progressbar prog false)
          = List.replicate (17 + (Int.tdiv prog 6).toNat) 30
      ∧ progressbar prog false
          = [Op.Goto 1 0]
            ++ (List.replicate 17 [Op.Print [space], Op.Sleep 30]).flatten
            ++ [Op.Goto 1 0]
            ++ (List.replicate (Int.tdiv prog 6).toNat
                  [Op.WriteData 0xFF, Op.Sleep 30]).flatten := by
  refine ⟨?_, written_progressbar prog false, delays_progressbar_paused prog,
    delays_progressbar_playing prog, rfl⟩
  rw [written_progressbar, written_progressbar]

end SpotifyLcd

namespace SpotifyLcd

/-! ## The sampling loop -/

theorem setState_open (prev raw : Bool) :
    Debouncer.SetState ⟨false, prev⟩ raw = (⟨false, raw⟩, !prev && raw) := by
  cases prev <;> cases raw <;> rfl

theorem count_toggle_step (b : Buttons) (p : Pins) :
    List.count Command.toggle (getgpioStep b p).2
      = if (b.swPlayPause.SetState p.gpioPlayPause).2 then 1 else 0 := by
  simp only [getgpioStep, fire]
  cases (b.swPlayPause.SetState p.gpioPlayPause).2 <;>
    cases (b.swForward.SetState p.gpioForward).2 <;>
    cases (b.swBackward.SetState p.gpioBackward).2 <;>
    cases (b.swHeart.SetState p.gpioHeart).2 <;> decide

theorem getgpio_toggles (samples : List Pins) :
    ∀ (b : Buttons) (prev : Bool), b.swPlayPause = ⟨false, prev⟩ →
      (getgpio b samples).map (List.count Command.toggle)
        = List.zipWith (fun before now => if !before && now then 1 else 0)
            (prev :: samples.map Pins.gpioPlayPause) (samples.map Pins.gpioPlayPause) := by
  induction samples with
  | nil => intro b prev _; rfl
  | cons p rest ih =>
    intro b prev hb
    have hstep : (getgpioStep b p).1.swPlayPause = ⟨false, p.gpioPlayPause⟩ := by
      simp [getgpioStep, hb, setState_open]
    simp only [getgpio, List.map_cons, List.zipWith_cons_cons]
    rw [ih _ _ hstep, count_toggle_step, hb, setState_open]

/-- C8: for every sequence of samplings, the number of `spotify toggle` commands run at
each sampling is 1 exactly when the PlayPause level is true and the level of the
previous sampling (released, at the start) was false, and 0 otherwise: one click
per false-to-true transition, at the sample that first shows it, none on a
sustained true level and none on a true-to-false transition. The levels
`[false, false, true, true, true, false]` run exactly one toggle, at the third
sample. -/
theorem playpause_fires_on_rising_edge (samples : List Pins) :
    (getgpio buttons samples).map (List.count Command.toggle)
        = List.zipWith (fun before now => if !before && now then 1 else 0)
            (false :: samples.map Pins.gpioPlayPause) (samples.map Pins.gpioPlayPause)
      ∧ getgpio buttons
            ([false, false, true, true, true, false].map (fun l => ⟨l, false, false, false⟩))
          = [[], [], [Command.toggle], [], [], []] :=
  ⟨getgpio_toggles samples buttons false rfl, by decide⟩

end SpotifyLcd

namespace SpotifyLcd

/-! ## Rounding -/

theorem floor_le_roundHalfEven (y : ℚ) : ⌊y⌋ ≤ roundHalfEven y := by
  unfold roundHalfEven
  split_ifs <;> omega

theorem roundHalfEven_le_floor_succ (y : ℚ) : roundHalfEven y ≤ ⌊y⌋ + 1 := by
  unfold roundHalfEven
  split_ifs <;> omega

theorem roundHalfEven_intCast (n : ℤ) : roundHalfEven (n : ℚ) = n := by
  unfold roundHalfEven
  simp

theorem roundHalfEven_mono {y z : ℚ} (h : y ≤ z) : roundHalfEven y ≤ roundHalfEven z := by
  rcases lt_or_eq_of_le (Int.floor_mono h) with hlt | heq
  · calc roundHalfEven y ≤ ⌊y⌋ + 1 := roundHalfEven_le_floor_succ y
      _ ≤ ⌊z⌋ := hlt
      _ ≤ roundHalfEven z := floor_le_roundHalfEven z
  · unfold roundHalfEven
    rw [heq]
    split_ifs <;> first | omega | (exfalso; linarith)

theorem roundHalfEven_le_int {y : ℚ} {n : ℤ} (h : y ≤ n) : roundHalfEven y ≤ n := by
  have := roundHalfEven_mono h
  rwa [roundHalfEven_intCast] at this

theorem int_le_roundHalfEven {y : ℚ} {n : ℤ} (h : (n : ℚ) ≤ y) : n ≤ roundHalfEven y := by
  have := roundHalfEven_mono h
  rwa [roundHalfEven_intCast] at this

theorem ulp_pos (x : ℚ) : 0 < ulp x := by
  unfold ulp
  positivity

theorem rne_zero : rne 0 = 0 := by
  unfold rne
  simp [roundHalfEven]

theorem rne_nonneg {x : ℚ} (h : 0 ≤ x) : 0 ≤ rne x := by
  unfold rne
  have hq : (0 : ℚ) ≤ x / ulp x := div_nonneg h (ulp_pos x).le
  have h0 : (0 : ℤ) ≤ roundHalfEven (x / ulp x) := int_le_roundHalfEven (by simpa using hq)
  exact mul_nonneg (by exact_mod_cast h0) (ulp_pos x).le

theorem binade_mono {x y : ℚ} (hx : 0 < x) (h : x ≤ y) : binade x ≤ binade y := by
  unfold binade
  exact max_le_max (Int.log_mono_right hx h) (le_refl _)

theorem rne_le_binade_top (x : ℚ) : rne x ≤ 2 ^ (binade x + 1) := by
  unfold rne ulp
  have hu : (0 : ℚ) < 2 ^ (binade x - 52) := by positivity
  have hlt : x < (2 : ℚ) ^ (Int.log 2 x + 1) := by
    simpa using Int.lt_zpow_succ_log_self (R := ℚ) (b := 2) (by norm_num) x
  have hle : (2 : ℚ) ^ (Int.log 2 x + 1) ≤ 2 ^ (binade x + 1) :=
    zpow_le_zpow_right₀ (by norm_num) (by unfold binade; omega)
  have hsplit : (2 : ℚ) ^ (binade x + 1) = ((2 ^ 53 : ℤ) : ℚ) * 2 ^ (binade x - 52) := by
    have : binade x + 1 = 53 + (binade x - 52) := by ring
    rw [this, zpow_add₀ (by norm_num : (2 : ℚ) ≠ 0)]
    norm_num
  have hq : x / 2 ^ (binade x - 52) ≤ ((2 ^ 53 : ℤ) : ℚ) := by
    rw [div_le_iff₀ hu, ← hsplit]
    linarith
  have hr : roundHalfEven (x / 2 ^ (binade x - 52)) ≤ 2 ^ 53 := roundHalfEven_le_int hq
  rw [hsplit]
  exact mul_le_mul_of_nonneg_right (by exact_mod_cast hr) hu.le

theorem binade_bottom_le_rne {x : ℚ} (hx : 0 < x) (hb : -1022 < binade x) :
    2 ^ binade x ≤ rne x := by
  have hbin : binade x = Int.log 2 x := by
    unfold binade at hb ⊢
    omega
  unfold rne ulp
  have hu : (0 : ℚ) < 2 ^ (binade x - 52) := by positivity
  have hge : (2 : ℚ) ^ binade x ≤ x := by
    rw [hbin]
    simpa using Int.zpow_log_le_self (R := ℚ) (b := 2) (by norm_num) hx
  have hsplit : (2 : ℚ) ^ binade x = ((2 ^ 52 : ℤ) : ℚ) * 2 ^ (binade x - 52) := by
    have : binade x = 52 + (binade x - 52) := by ring
    nth_rewrite 1 [this]
    rw [zpow_add₀ (by norm_num : (2 : ℚ) ≠ 0)]
    norm_num
  have hq : ((2 ^ 52 : ℤ) : ℚ) ≤ x / 2 ^ (binade x - 52) := by
    rw [le_div_iff₀ hu, ← hsplit]
    exact hge
  have hr : 2 ^ 52 ≤ roundHalfEven (x / 2 ^ (binade x - 52)) := int_le_roundHalfEven hq
  rw [hsplit]
  exact mul_le_mul_of_nonneg_right (by exact_mod_cast hr) hu.le

theorem rne_mono {x y : ℚ} (hx : 0 ≤ x) (h : x ≤ y) : rne x ≤ rne y := by
  rcases eq_or_lt_of_le hx with h0 | hpos
  · rw [← h0, rne_zero]
    exact rne_nonneg (hx.trans h)
  · rcases lt_or_eq_of_le (binade_mono hpos h) with hlt | heq
    · calc rne x ≤ 2 ^ (binade x + 1) := rne_le_binade_top x
        _ ≤ 2 ^ binade y := zpow_le_zpow_right₀ (by norm_num) (by omega)
        _ ≤ rne y := binade_bottom_le_rne (hpos.trans_le h)
            (by have : -1022 ≤ binade x := by unfold binade; omega
                omega)
    · unfold rne ulp
      rw [heq]
      have hu : (0 : ℚ) < 2 ^ (binade y - 52) := by positivity
      have hq : x / 2 ^ (binade y - 52) ≤ y / 2 ^ (binade y - 52) :=
        div_le_div_of_nonneg_right h hu.le
      exact mul_le_mul_of_nonneg_right (by exact_mod_cast roundHalfEven_mono hq) hu.le

theorem rne_one : rne 1 = 1 := by decide!

theorem rne_hundred : rne 100 = 100 := by decide!

end SpotifyLcd

namespace SpotifyLcd

/-! ## The percentage and the bar length -/

theorem count_loop_blocks (n : Nat) :
    (List.replicate n [Op.WriteData 0xFF]).flatten.count (Op.WriteData 0xFF) = n := by
  rw [flatten_replicate_singleton]
  simp

theorem count_loop_blocks_sleep (n : Nat) :
    (List.replicate n [Op.WriteData 0xFF, Op.Sleep 30]).flatten.count (Op.WriteData 0xFF) = n := by
  induction n with
  | zero => rfl
  | succ n ih =>
    rw [List.replicate_succ, List.flatten_cons, List.count_append, ih]
    have : List.count (Op.WriteData 0xFF) [Op.WriteData 0xFF, Op.Sleep 30] = 1 := by decide
    omega

theorem count_loop_blank (n : Nat) :
    (List.replicate n [Op.Print [space], Op.Sleep 30]).flatten.count (Op.WriteData 0xFF) = 0 := by
  induction n with
  | zero => rfl
  | succ n ih =>
    rw [List.replicate_succ, List.flatten_cons, List.count_append, ih]
    decide

theorem solidBlocks_progressbar (prog : Int) (paused : Bool) :
    solidBlocks (progressbar prog paused) = (Int.tdiv prog 6).toNat := by
  cases paused
  · simp only [solidBlocks, progressbar, forLoop, Bool.false_eq_true, if_false,
      List.count_append, count_loop_blocks_sleep]
    have h1 : List.count (Op.WriteData 0xFF) [Op.Goto 1 0] = 0 := by decide
    have h2 := count_loop_blank 17
    simp only [Int.toNat_ofNat] at h2 ⊢
    rw [h1]
    have h3 : (17 : Int).toNat = 17 := rfl
    rw [h3, h2]
    omega
  · simp only [solidBlocks, progressbar, forLoop, if_true, List.count_append, count_loop_blocks]
    have h1 : List.count (Op.WriteData 0xFF) [Op.Goto 1 0] = 0 := by decide
    have h2 : List.count (Op.WriteData 0xFF) [Op.Print blankRow, Op.Sleep 480] = 0 := by decide
    have h3 : List.count (Op.WriteData 0xFF) [Op.Sleep 480] = 0 := by decide
    rw [h1, h2, h3]
    omega

theorem rne_div_le_one {pm dm : ℚ} (hd : 0 < dm) (h0 : 0 ≤ pm) (h2 : pm ≤ dm) :
    0 ≤ rne (pm / dm) ∧ rne (pm / dm) ≤ 1 := by
  have hq0 : 0 ≤ pm / dm := div_nonneg h0 hd.le
  have hq1 : pm / dm ≤ 1 := (div_le_one hd).mpr h2
  exact ⟨rne_nonneg hq0, by simpa [rne_one] using rne_mono hq0 hq1⟩

theorem rne_scaled_le_hundred {pm dm : ℚ} (hd : 0 < dm) (h0 : 0 ≤ pm) (h2 : pm ≤ dm) :
    0 ≤ rne (rne (pm / dm) * 100) ∧ rne (rne (pm / dm) * 100) ≤ 100 := by
  obtain ⟨ha, hb⟩ := rne_div_le_one hd h0 h2
  have hq0 : 0 ≤ rne (pm / dm) * 100 := by positivity
  have hq1 : rne (pm / dm) * 100 ≤ 100 := by linarith
  exact ⟨rne_nonneg hq0, by simpa [rne_hundred] using rne_mono hq0 hq1⟩

theorem pow_big : (100 : ℚ) < 2 ^ 1024 := by norm_num

theorem percentage_snapshot (arch : Arch) (pm dm : ℚ) (name : GoString) (isPlaying : Bool)
    (hd : 0 < dm) (h0 : 0 ≤ pm) (h2 : pm ≤ dm) :
    percentage arch (snapshot pm dm name isPlaying) = ⌊rne (rne (pm / dm) * 100)⌋
      ∧ 0 ≤ ⌊rne (rne (pm / dm) * 100)⌋ ∧ ⌊rne (rne (pm / dm) * 100)⌋ ≤ 100 := by
  obtain ⟨ha, hb⟩ := rne_div_le_one hd h0 h2
  obtain ⟨hc, he⟩ := rne_scaled_le_hundred hd h0 h2
  have hfl0 : 0 ≤ ⌊rne (rne (pm / dm) * 100)⌋ := Int.floor_nonneg.mpr hc
  have hfl1 : ⌊rne (rne (pm / dm) * 100)⌋ ≤ 100 := by
    have : ⌊rne (rne (pm / dm) * 100)⌋ ≤ ⌊(100 : ℚ)⌋ := Int.floor_mono he
    simpa using this
  refine ⟨?_, hfl0, hfl1⟩
  have hbig := pow_big
  have hdiv : F64.div (F64.num false pm) (F64.num false dm) = F64.num false (rne (pm / dm)) := by
    simp only [F64.div, F64.round, hd.ne', if_false]
    rw [if_pos (by linarith)]
    rfl
  have hmul : F64.mul (F64.num false (rne (pm / dm))) (F64.num false 100)
      = F64.num false (rne (rne (pm / dm) * 100)) := by
    simp only [F64.mul, F64.round]
    rw [if_pos (by linarith)]
    rfl
  simp only [percentage, snapshot, hdiv, hmul, toInt, Bool.false_eq_true, if_false]
  rw [if_pos]
  rcases arch.bits_ok with hb32 | hb64
  · rw [hb32]; constructor <;> norm_num <;> omega
  · rw [hb64]; constructor <;> norm_num <;> omega

end SpotifyLcd

namespace SpotifyLcd

theorem percentage_mono (arch : Arch) (pm pm2 dm : ℚ) (name : GoString) (isPlaying : Bool)
    (hd : 0 < dm) (h0 : 0 ≤ pm) (h1 : pm ≤ pm2) (h2 : pm2 ≤ dm) :
    percentage arch (snapshot pm dm name isPlaying)
      ≤ percentage arch (snapshot pm2 dm name isPlaying) := by
  rw [(percentage_snapshot arch pm dm name isPlaying hd h0 (h1.trans h2)).1,
    (percentage_snapshot arch pm2 dm name isPlaying hd (h0.trans h1) h2).1]
  apply Int.floor_mono
  have hq : pm / dm ≤ pm2 / dm := div_le_div_of_nonneg_right h1 hd.le
  have hr := rne_mono (div_nonneg h0 hd.le) hq
  have hr0 := rne_nonneg (div_nonneg h0 hd.le)
  exact rne_mono (by positivity) (by linarith)

theorem percentage_negative_zero (arch : Arch) (dm : ℚ) (name : GoString) (isPlaying : Bool)
    (hd : 0 < dm) :
    percentage arch ⟨F64.num true 0, ⟨F64.num false dm, name⟩, isPlaying⟩ = 0 := by
  have hbig := pow_big
  have hdiv : F64.div (F64.num true 0) (F64.num false dm) = F64.num true 0 := by
    simp only [F64.div, F64.round, hd.ne', if_false, zero_div, rne_zero]
    rw [if_pos (by positivity)]
    rfl
  have hmul : F64.mul (F64.num true 0) (F64.num false 100) = F64.num true 0 := by
    simp only [F64.mul, F64.round, zero_mul, rne_zero]
    rw [if_pos (by positivity)]
    rfl
  simp only [percentage, hdiv, hmul, toInt, if_true, Int.floor_zero, neg_zero]
  rw [if_pos]
  rcases arch.bits_ok with hb32 | hb64
  · rw [hb32]; constructor <;> norm_num
  · rw [hb64]; constructor <;> norm_num

/-- C3: for every duration `dm > 0` and progress values `0 <= pm <= pm2 <= dm`, the
percentage passed to `progressbar` is the floor of the float64 value
`(pm / dm) * 100` (both operations rounded to nearest), it lies in `0 .. 100`,
the number of solid blocks drawn is `L = floor(percentage / 6)`, `0 <= L <= 16`,
and `L` does not decrease from `pm` to `pm2`. A progress of negative zero gives
percentage 0. -/
theorem bar_length_bounded_monotone (arch : Arch) (pm pm2 dm : ℚ) (name : GoString)
    (isPlaying : Bool) (hd : 0 < dm) (h0 : 0 ≤ pm) (h1 : pm ≤ pm2) (h2 : pm2 ≤ dm) :
    percentage arch (snapshot pm dm name isPlaying) = ⌊rne (rne (pm / dm) * 100)⌋
      ∧ 0 ≤ percentage arch (snapshot pm dm name isPlaying)
      ∧ percentage arch (snapshot pm dm name isPlaying) ≤ 100
      ∧ solidBlocks (progressbar (percentage arch (snapshot pm dm name isPlaying)) (!isPlaying))
          = (percentage arch (snapshot pm dm name isPlaying) / 6).toNat
      ∧ 0 ≤ percentage arch (snapshot pm dm name isPlaying) / 6
      ∧ percentage arch (snapshot pm dm name isPlaying) / 6 ≤ 16
      ∧ solidBlocks (progressbar (percentage arch (snapshot pm dm name isPlaying)) (!isPlaying))
          ≤ 16
      ∧ solidBlocks (progressbar (percentage arch (snapshot pm dm name isPlaying)) (!isPlaying))
          ≤ solidBlocks
              (progressbar (percentage arch (snapshot pm2 dm name isPlaying)) (!isPlaying))
      ∧ percentage arch ⟨F64.num true 0, ⟨F64.num false dm, name⟩, isPlaying⟩ = 0 := by
  obtain ⟨hp, hp0, hp1⟩ := percentage_snapshot arch pm dm name isPlaying hd h0 (h1.trans h2)
  obtain ⟨hq, hq0, hq1⟩ := percentage_snapshot arch pm2 dm name isPlaying hd (h0.trans h1) h2
  have hmono := percentage_mono arch pm pm2 dm name isPlaying hd h0 h1 h2
  rw [← hp] at hp0 hp1
  rw [← hq] at hq0 hq1
  have ht : Int.tdiv (percentage arch (snapshot pm dm name isPlaying)) 6
      = percentage arch (snapshot pm dm name isPlaying) / 6 :=
    Int.tdiv_eq_ediv hp0 (by norm_num)
  have ht2 : Int.tdiv (percentage arch (snapshot pm2 dm name isPlaying)) 6
      = percentage arch (snapshot pm2 dm name isPlaying) / 6 :=
    Int.tdiv_eq_ediv hq0 (by norm_num)
  have hdivmono : percentage arch (snapshot pm dm name isPlaying) / 6
      ≤ percentage arch (snapshot pm2 dm name isPlaying) / 6 :=
    Int.ediv_le_ediv (by norm_num) hmono
  refine ⟨hp, hp0, hp1, ?_, by omega, by omega, ?_, ?_,
    percentage_negative_zero arch dm name isPlaying hd⟩
  · rw [solidBlocks_progressbar, ht]
  · rw [solidBlocks_progressbar, ht]; omega
  · rw [solidBlocks_progressbar, solidBlocks_progressbar, ht, ht2]; omega

theorem bar_length_bounded_monotone_witness :
    percentage amd64 (snapshot 30000 200000 [] true) = ⌊rne (rne (30000 / 200000) * 100)⌋
      ∧ 0 ≤ percentage amd64 (snapshot 30000 200000 [] true)
      ∧ percentage amd64 (snapshot 30000 200000 [] true) ≤ 100
      ∧ solidBlocks (progressbar (percentage amd64 (snapshot 30000 200000 [] true)) (!true))
          = (percentage amd64 (snapshot 30000 200000 [] true) / 6).toNat
      ∧ 0 ≤ percentage amd64 (snapshot 30000 200000 [] true) / 6
      ∧ percentage amd64 (snapshot 30000 200000 [] true) / 6 ≤ 16
      ∧ solidBlocks (progressbar (percentage amd64 (snapshot 30000 200000 [] true)) (!true))
          ≤ 16
      ∧ solidBlocks (progressbar (percentage amd64 (snapshot 30000 200000 [] true)) (!true))
          ≤ solidBlocks
              (progressbar (percentage amd64 (snapshot 90000 200000 [] true)) (!true))
      ∧ percentage amd64 ⟨F64.num true 0, ⟨F64.num false 200000, []⟩, true⟩ = 0 :=
  bar_length_bounded_monotone amd64 30000 90000 200000 [] true
    (by norm_num) (by norm_num) (by norm_num) (by norm_num)

end SpotifyLcd

namespace SpotifyLcd

/-! ## The success path -/

theorem percentage_fortunate : percentage amd64 fortunate = 15 := by decide!

theorem success_ne_fallback (arch : Arch) (offset : Int) (details : AutoGenerated)
    (h : 0 ≤ offset) : (tick arch offset details false).map Prod.snd ≠ some fallback := by
  rw [tick_success arch offset details h]
  intro hc
  have hlen := congrArg (Option.map List.length) hc
  simp only [Option.map_some', progressbar, fallback, List.length_append, List.length_cons,
    List.length_nil, Option.some.injEq] at hlen
  omega

/-! ## Zero duration -/

/-- C4, counterexample: the payload `{}` decodes without error to the zero value; the
tick takes the success branch: it prints a blank title, evaluates `0 / 0` (NaN),
runs `progressbar` and writes the pause glyph; its display calls are not the
fallback message, and the offset advances to 1. -/
theorem zero_duration_not_fallback :
    tick amd64 0 zeroDetails false
        = some (1, [Op.Goto 0 0, Op.Print (List.replicate 14 space)]
            ++ progressbar (percentage amd64 zeroDetails) true
            ++ [Op.Goto 0 14, Op.WriteData 0b01111100, Op.WriteData 0x01])
      ∧ F64.div zeroDetails.ProgressMs zeroDetails.Item.DurationMs = F64.nan
      ∧ percentage amd64 zeroDetails = amd64.convInvalid F64.nan
      ∧ (tick amd64 0 zeroDetails false).map Prod.snd ≠ some fallback := by
  refine ⟨?_, by decide, by decide, success_ne_fallback amd64 0 zeroDetails (le_refl _)⟩
  rw [tick_success amd64 0 zeroDetails (le_refl _)]
  rfl

/-- C4, amended: for a payload that decodes without error with a duration of zero (and
finite progress), the tick takes the success branch all the same: the float64
division by zero is evaluated and gives NaN for progress 0 and an infinity
otherwise, `int` of that value is implementation-dependent, and the tick prints
the title window, advances the offset, runs `progressbar` with that percentage
and writes the status glyph; the fallback message is not shown. -/
theorem zero_duration_tick (arch : Arch) (offset : Int) (details : AutoGenerated)
    (s t : Bool) (pm : ℚ) (hoff : 0 ≤ offset)
    (hprog : details.ProgressMs = F64.num s pm)
    (hdur : details.Item.DurationMs = F64.num t 0) :
    F64.div details.ProgressMs details.Item.DurationMs
        = (if pm = 0 then F64.nan else F64.inf (xor s t))
      ∧ percentage arch details
          = arch.convInvalid (if pm = 0 then F64.nan else F64.inf (xor s t))
      ∧ tick arch offset details false
          = some (wrap offset details.Item.Name + 1,
              [Op.Goto 0 0,
               Op.Print (pad (window details.Item.Name
                 (wrap offset details.Item.Name).toNat) 14)]
              ++ progressbar (percentage arch details) (!details.IsPlaying)
              ++ [Op.Goto 0 14, Op.WriteData 0b01111100,
                  Op.WriteData (if !details.IsPlaying then 0b00000001 else 0b00000000)])
      ∧ (tick arch offset details false).map Prod.snd ≠ some fallback := by
  have hdiv : F64.div details.ProgressMs details.Item.DurationMs
      = (if pm = 0 then F64.nan else F64.inf (xor s t)) := by
    rw [hprog, hdur]
    simp [F64.div]
  refine ⟨hdiv, ?_, tick_success arch offset details hoff,
    success_ne_fallback arch offset details hoff⟩
  unfold percentage
  rw [hdiv]
  by_cases hpm : pm = 0
  · simp [hpm, F64.mul, toInt]
  · simp [hpm, F64.mul, toInt]

theorem zero_duration_tick_witness :
    F64.div zeroDetails.ProgressMs zeroDetails.Item.DurationMs
        = (if (0 : ℚ) = 0 then F64.nan else F64.inf (xor false false))
      ∧ percentage amd64 zeroDetails
          = amd64.convInvalid (if (0 : ℚ) = 0 then F64.nan else F64.inf (xor false false))
      ∧ tick amd64 0 zeroDetails false
          = some (wrap 0 zeroDetails.Item.Name + 1,
              [Op.Goto 0 0,
               Op.Print (pad (window zeroDetails.Item.Name
                 (wrap 0 zeroDetails.Item.Name).toNat) 14)]
              ++ progressbar (percentage amd64 zeroDetails) (!zeroDetails.IsPlaying)
              ++ [Op.Goto 0 14, Op.WriteData 0b01111100,
                  Op.WriteData (if !zeroDetails.IsPlaying then 0b00000001 else 0b00000000)])
      ∧ (tick amd64 0 zeroDetails false).map Prod.snd ≠ some fallback :=
  zero_duration_tick amd64 0 zeroDetails false false 0 (le_refl _) rfl rfl

end SpotifyLcd

namespace SpotifyLcd

/-! ## Short names -/

theorem length_pad (s : GoString) (n : Nat) :
    (pad s n).length = s.length + (n - RuneCountInString s) := by
  simp [pad]

theorem length_pad_ascii (s : GoString) (h : ∀ c ∈ s, c < 0x80) (hlen : s.length ≤ 14) :
    (pad s 14).length = 14 := by
  rw [length_pad, runeCount_ascii s h]
  omega

/-- C2, counterexample: counted in bytes, the name e-acute is shorter than 14
(`len` is 2), but the title printed has 15 bytes, not 14; counted in runes, the
16-byte name `noel` is shorter than 14 (13 runes), but tick 0 prints only its
first 14 bytes followed by 3 spaces, advances the offset to 1, and the wrap
check leaves 1 in place, so the next tick slices at offset 1: the title
scrolls. -/
theorem short_name_units_disagree :
    len eacute = 2
      ∧ (tick amd64 0 (playing eacute).details false).map (fun r => r.2.take 2)
          = some [Op.Goto 0 0, Op.Print (eacute ++ List.replicate 13 space)]
      ∧ (eacute ++ List.replicate 13 space).length = 15
      ∧ RuneCountInString noel = 13
      ∧ len noel = 16
      ∧ (tick amd64 0 (playing noel).details false).map (fun r => (r.1, r.2.take 2))
          = some (1, [Op.Goto 0 0, Op.Print (window noel 0 ++ List.replicate 3 space)])
      ∧ window noel 0 ≠ noel
      ∧ wrap 1 noel = 1
      ∧ substring noel 1 14 = some (window noel 1)
      ∧ window noel 1 ≠ window noel 0 := by
  refine ⟨by decide, ?_, by decide, by decide, by decide, ?_, by decide, by decide,
    by decide, by decide⟩
  · rw [tick_success amd64 0 _ (le_refl _)]
    decide
  · rw [tick_success amd64 0 _ (le_refl _)]
    decide

/-- C2, amended: for a name of fewer than 14 bytes (`len(name) < 14`) and any prior
offset `>= 0`, a successful tick slices at offset 0 (the new offset is `0 + 1`),
`substring` returns the whole name, and the title printed is the name followed
by `14 - r` spaces, `r` being the number of runes of the name: a title 14 runes
wide, of `len(name) + 14 - r` bytes, which is 14 bytes when the name is ASCII. -/
theorem short_name_tick (arch : Arch) (offset : Int) (details : AutoGenerated)
    (hshort : len details.Item.Name < 14) (hoff : 0 ≤ offset) :
    wrap offset details.Item.Name = 0
      ∧ substring details.Item.Name 0 14 = some details.Item.Name
      ∧ tick arch offset details false
          = some (0 + 1,
              [Op.Goto 0 0, Op.Print (pad details.Item.Name 14)]
              ++ progressbar (percentage arch details) (!details.IsPlaying)
              ++ [Op.Goto 0 14, Op.WriteData 0b01111100,
                  Op.WriteData (if !details.IsPlaying then 0b00000001 else 0b00000000)])
      ∧ pad details.Item.Name 14
          = details.Item.Name
              ++ List.replicate (14 - RuneCountInString details.Item.Name) space
      ∧ RuneCountInString (pad details.Item.Name 14) = 14
      ∧ (pad details.Item.Name 14).length
          = details.Item.Name.length + (14 - RuneCountInString details.Item.Name)
      ∧ ((∀ c ∈ details.Item.Name, c < 0x80) → (pad details.Item.Name 14).length = 14) := by
  have hlen : len details.Item.Name = (details.Item.Name.length : Int) := rfl
  have hw : wrap offset details.Item.Name = 0 := by
    rcases wrap_cases offset details.Item.Name with ⟨_, h2⟩ | ⟨h1, _⟩
    · exact h2
    · omega
  have htake : (details.Item.Name.drop 0).take 14 = details.Item.Name := by
    rw [List.drop_zero, List.take_of_length_le]; omega
  have hrunes := runeCount_le details.Item.Name
  refine ⟨hw, ?_, ?_, rfl, runeCount_pad _ _ (by omega), length_pad _ _,
    fun h => length_pad_ascii _ h (by omega)⟩
  · rw [substring_window _ 0 (le_refl _) (len_nonneg _)]
    simpa using htake
  · rw [tick_success arch offset details hoff, hw]
    simp only [Int.toNat_zero, htake]

theorem short_name_tick_witness :
    wrap 3 eacute = 0
      ∧ substring eacute 0 14 = some eacute
      ∧ tick amd64 3 (playing eacute).details false
          = some (0 + 1,
              [Op.Goto 0 0, Op.Print (pad eacute 14)]
              ++ progressbar (percentage amd64 (playing eacute).details) (!true)
              ++ [Op.Goto 0 14, Op.WriteData 0b01111100,
                  Op.WriteData (if !true then 0b00000001 else 0b00000000)])
      ∧ pad eacute 14 = eacute ++ List.replicate (14 - RuneCountInString eacute) space
      ∧ RuneCountInString (pad eacute 14) = 14
      ∧ (pad eacute 14).length = eacute.length + (14 - RuneCountInString eacute)
      ∧ ((∀ c ∈ eacute, c < 0x80) → (pad eacute 14).length = 14) :=
  short_name_tick amd64 3 (playing eacute).details (by decide) (by decide)

end SpotifyLcd

namespace SpotifyLcd

/-! ## The success path -/

theorem two_zpow_le_rne {x : ℚ} (k : ℤ) (hk : -1022 < k) (hx : (2 : ℚ) ^ k ≤ x) :
    (2 : ℚ) ^ k ≤ rne x := by
  have hpos : (0 : ℚ) < 2 ^ k := by positivity
  have hlog : k ≤ Int.log 2 x := by
    have h := Int.log_mono_right (b := 2) hpos hx
    have hz : Int.log 2 ((2 : ℚ) ^ k) = k := by
      simpa using Int.log_zpow (R := ℚ) (b := 2) (by norm_num) k
    rwa [hz] at h
  have hbin : k ≤ binade x := by unfold binade; omega
  calc (2 : ℚ) ^ k ≤ 2 ^ binade x := zpow_le_zpow_right₀ (by norm_num) hbin
    _ ≤ rne x := binade_bottom_le_rne (hpos.trans_le hx) (by omega)

theorem two_pow_63_le_rne {x : ℚ} (hx : (2 : ℚ) ^ 63 ≤ x) : (2 : ℚ) ^ 63 ≤ rne x := by
  have h := two_zpow_le_rne (x := x) 63 (by norm_num) (by exact_mod_cast hx)
  exact_mod_cast h

theorem fit_lt_two_pow_63 (arch : Arch) : (2 : ℚ) ^ (arch.intBits - 1) ≤ 2 ^ 63 := by
  rcases arch.bits_ok with h | h
  · rw [h]; norm_num
  · rw [h]

theorem percentage_finite (arch : Arch) (details : AutoGenerated) (s : Bool) (pm dm : ℚ)
    (hprog : details.ProgressMs = F64.num s pm) (hpm : 0 ≤ pm)
    (hdur : details.Item.DurationMs = F64.num false dm) (hd : 0 < dm)
    (hfit : rne (rne (pm / dm) * 100) < 2 ^ (arch.intBits - 1)) :
    percentage arch details
        = (if s then -⌊rne (rne (pm / dm) * 100)⌋ else ⌊rne (rne (pm / dm) * 100)⌋)
      ∧ 0 ≤ ⌊rne (rne (pm / dm) * 100)⌋ := by
  have h63 := fit_lt_two_pow_63 arch
  have hr1 : 0 ≤ rne (pm / dm) := rne_nonneg (div_nonneg hpm hd.le)
  have hr2 : 0 ≤ rne (rne (pm / dm) * 100) := rne_nonneg (by positivity)
  have hbig : (2 : ℚ) ^ 63 < 2 ^ 1024 := by norm_num
  have hsmall : rne (pm / dm) < 2 ^ 1024 := by
    by_contra hcon
    have hge : (2 : ℚ) ^ 1024 ≤ rne (pm / dm) := not_lt.mp hcon
    have h1 : (2 : ℚ) ^ 63 ≤ rne (pm / dm) * 100 := by nlinarith
    have h2 := two_pow_63_le_rne h1
    linarith
  have hfl0 : 0 ≤ ⌊rne (rne (pm / dm) * 100)⌋ := Int.floor_nonneg.mpr hr2
  have hfl1 : ⌊rne (rne (pm / dm) * 100)⌋ < 2 ^ (arch.intBits - 1) := by
    rw [Int.floor_lt]
    exact_mod_cast hfit
  have hpos : (0 : Int) < 2 ^ (arch.intBits - 1) := by positivity
  refine ⟨?_, hfl0⟩
  have hdiv : F64.div details.ProgressMs details.Item.DurationMs
      = F64.num s (rne (pm / dm)) := by
    rw [hprog, hdur]
    simp only [F64.div, F64.round, hd.ne', if_false, Bool.xor_false]
    rw [if_pos hsmall]
  have hmul : F64.mul (F64.num s (rne (pm / dm))) (F64.num false 100)
      = F64.num s (rne (rne (pm / dm) * 100)) := by
    simp only [F64.mul, F64.round, Bool.xor_false]
    rw [if_pos (by linarith)]
  simp only [percentage, hdiv, hmul, toInt]
  rw [if_pos]
  cases s
  · simp only [Bool.false_eq_true, if_false]
    constructor <;> omega
  · simp only [if_true]
    constructor <;> omega

theorem blocks_of_sign (s : Bool) (n : Int) (hn : 0 ≤ n) :
    (Int.tdiv (if s then -n else n) 6).toNat = (if s then 0 else (n / 6).toNat) := by
  cases s
  · simp only [Bool.false_eq_true, if_false]
    rw [Int.tdiv_eq_ediv hn (by norm_num)]
  · simp only [if_true, Int.neg_tdiv]
    have := Int.tdiv_nonneg hn (by norm_num : (0 : Int) ≤ 6)
    omega

theorem percentage_amd64_overflow (pm dm : ℚ) (name : GoString) (isPlaying : Bool)
    (hd : 0 < dm) (hbig : (2 : ℚ) ^ 63 ≤ pm / dm) :
    percentage amd64 (snapshot pm dm name isPlaying) = -(2 ^ 63) := by
  have h1 : (2 : ℚ) ^ 63 ≤ rne (pm / dm) := two_pow_63_le_rne hbig
  have h2 : (2 : ℚ) ^ 63 ≤ rne (rne (pm / dm) * 100) :=
    two_pow_63_le_rne (by nlinarith)
  have hfl : ¬ (⌊rne (rne (pm / dm) * 100)⌋ < 2 ^ 63) := by
    rw [Int.floor_lt, not_lt]
    exact_mod_cast h2
  simp only [percentage, snapshot, F64.div, F64.round, hd.ne', if_false]
  by_cases ha : rne (pm / dm) < 2 ^ 1024
  · rw [if_pos ha]
    simp only [F64.mul, F64.round]
    by_cases hb : rne (rne (pm / dm) * 100) < 2 ^ 1024
    · rw [if_pos hb]
      simp only [toInt, Bool.false_eq_true, if_false]
      rw [if_neg (fun h => hfl h.2)]
      rfl
    · rw [if_neg hb]
      rfl
  · rw [if_neg ha]
    rfl

/-- C7, counterexample: two snapshots that decode without error, with duration `> 0`.
For progress 540431955284458 and duration 9007199254740967 the tick draws 1
solid block, while `floor(floor(progressMs/durationMs*100)/6)` is 0 (the float64
product rounds up to 6). For progress 1e30 and duration 1 the percentage does
not fit `int`; on `amd64` the tick draws no block, while the formula is far
from 0. -/
theorem bar_length_formula_fails :
    solidBlocks (progressbar
        (percentage amd64 (snapshot 540431955284458 9007199254740967 [] true)) (!true)) = 1
      ∧ ⌊(540431955284458 : ℚ) / 9007199254740967 * 100⌋ / 6 = 0
      ∧ solidBlocks (progressbar
          (percentage amd64 (snapshot 1000000000000000019884624838656 1 [] true)) (!true)) = 0
      ∧ ⌊(1000000000000000019884624838656 : ℚ) / 1 * 100⌋ / 6
          = 16666666666666666998077080644266 := by
  refine ⟨?_, by decide!, ?_, by decide!⟩
  · rw [solidBlocks_progressbar]
    decide!
  · rw [solidBlocks_progressbar,
      percentage_amd64_overflow _ _ _ _ (by norm_num) (by norm_num)]
    decide

end SpotifyLcd

namespace SpotifyLcd

/-- C7, amended: for a snapshot decoded without error, with finite progress of sign `s`
and magnitude `pm` and duration `dm > 0`, at an offset `>= 0`, let `x` be the
float64 value `(progressMs/durationMs)*100`, each operation rounded to nearest
even, and suppose `floor(x)` fits `int`. One tick issues, in this order:
`Goto(0,0)` and `Print` of the title window padded to a width of 14 runes (14
bytes for an ASCII name); the progress bar (cursor to (1,0), 17 blanks, cursor
to (1,0), then `L` bytes 0xFF) where the percentage is `floor(x)` (negated for
negative progress) and `L = floor(floor(x) / 6)`, or 0 for negative progress;
then `Goto(0,14)`, the byte 0b01111100 and the glyph byte 0x00 when playing,
0x01 when not. For `fortunate` at offset 0: title "Fortunate Son ", percentage
15, 2 blocks, glyph byte 0x00; for progress 29 and duration 50 the percentage
is 57, the float64 product being just below 58. -/
theorem success_tick_display (arch : Arch) (offset : Int) (details : AutoGenerated)
    (s : Bool) (pm dm : ℚ) (hoff : 0 ≤ offset)
    (hprog : details.ProgressMs = F64.num s pm) (hpm : 0 ≤ pm)
    (hdur : details.Item.DurationMs = F64.num false dm) (hd : 0 < dm)
    (hfit : rne (rne (pm / dm) * 100) < 2 ^ (arch.intBits - 1)) :
    (∃ cut, substring details.Item.Name (wrap offset details.Item.Name) 14 = some cut
      ∧ cut.length ≤ 14
      ∧ RuneCountInString (pad cut 14) = 14
      ∧ ((∀ c ∈ details.Item.Name, c < 0x80) → (pad cut 14).length = 14)
      ∧ tick arch offset details false
          = some (wrap offset details.Item.Name + 1,
              [Op.Goto 0 0, Op.Print (pad cut 14)]
              ++ progressbar (percentage arch details) (!details.IsPlaying)
              ++ [Op.Goto 0 14, Op.WriteData 0b01111100,
                  Op.WriteData (if details.IsPlaying then 0x00 else 0x01)]))
      ∧ F64.div details.ProgressMs details.Item.DurationMs = F64.round s (pm / dm)
      ∧ percentage arch details
          = (if s then -⌊rne (rne (pm / dm) * 100)⌋ else ⌊rne (rne (pm / dm) * 100)⌋)
      ∧ written (progressbar (percentage arch details) (!details.IsPlaying))
          = [Cell.cursor 1 0] ++ List.replicate 17 (Cell.char space) ++ [Cell.cursor 1 0]
            ++ List.replicate (if s then 0 else (⌊rne (rne (pm / dm) * 100)⌋ / 6).toNat)
                (Cell.char 0xFF)
      ∧ solidBlocks (progressbar (percentage arch details) (!details.IsPlaying))
          = (if s then 0 else (⌊rne (rne (pm / dm) * 100)⌋ / 6).toNat)
      ∧ tick amd64 0 fortunate false
          = some (1, [Op.Goto 0 0, Op.Print (lit "Fortunate Son ")]
              ++ progressbar 15 false
              ++ [Op.Goto 0 14, Op.WriteData 0b01111100, Op.WriteData 0x00])
      ∧ percentage amd64 fortunate = 15
      ∧ solidBlocks (progressbar 15 false) = 2
      ∧ percentage amd64 (snapshot 29 50 [] true) = 57 := by
  obtain ⟨hw0, hw1⟩ := wrap_bounds offset details.Item.Name hoff
  obtain ⟨hperc, hfl0⟩ := percentage_finite arch details s pm dm hprog hpm hdur hd hfit
  have hblocks := blocks_of_sign s _ hfl0
  refine ⟨⟨_, substring_window _ _ hw0 hw1, window_length_le _ _, ?_, ?_, ?_⟩, ?_, hperc,
    ?_, ?_, ?_, percentage_fortunate, by decide, by decide!⟩
  · exact runeCount_pad _ _ ((runeCount_le _).trans (window_length_le _ _))
  · intro hascii
    exact length_pad_ascii _
      (fun c hc => hascii c (List.mem_of_mem_drop (List.mem_of_mem_take hc)))
      (window_length_le _ _)
  · rw [tick_success arch offset details hoff]
    cases details.IsPlaying <;> rfl
  · rw [hprog, hdur]
    simp [F64.div, hd.ne']
  · rw [written_progressbar, hperc, hblocks]
  · rw [solidBlocks_progressbar, hperc, hblocks]
  · rw [tick_success amd64 0 fortunate (le_refl _), percentage_fortunate]
    decide

theorem success_tick_display_witness :
    (∃ cut, substring fortunate.Item.Name (wrap 0 fortunate.Item.Name) 14 = some cut
      ∧ cut.length ≤ 14
      ∧ RuneCountInString (pad cut 14) = 14
      ∧ ((∀ c ∈ fortunate.Item.Name, c < 0x80) → (pad cut 14).length = 14)
      ∧ tick amd64 0 fortunate false
          = some (wrap 0 fortunate.Item.Name + 1,
              [Op.Goto 0 0, Op.Print (pad cut 14)]
              ++ progressbar (percentage amd64 fortunate) (!fortunate.IsPlaying)
              ++ [Op.Goto 0 14, Op.WriteData 0b01111100,
                  Op.WriteData (if fortunate.IsPlaying then 0x00 else 0x01)]))
      ∧ F64.div fortunate.ProgressMs fortunate.Item.DurationMs
          = F64.round false (30000 / 200000)
      ∧ percentage amd64 fortunate
          = (if false then -⌊rne (rne (30000 / 200000) * 100)⌋
              else ⌊rne (rne (30000 / 200000) * 100)⌋)
      ∧ written (progressbar (percentage amd64 fortunate) (!fortunate.IsPlaying))
          = [Cell.cursor 1 0] ++ List.replicate 17 (Cell.char space) ++ [Cell.cursor 1 0]
            ++ List.replicate
                (if false then 0 else (⌊rne (rne (30000 / 200000) * 100)⌋ / 6).toNat)
                (Cell.char 0xFF)
      ∧ solidBlocks (progressbar (percentage amd64 fortunate) (!fortunate.IsPlaying))
          = (if false then 0 else (⌊rne (rne (30000 / 200000) * 100)⌋ / 6).toNat)
      ∧ tick amd64 0 fortunate false
          = some (1, [Op.Goto 0 0, Op.Print (lit "Fortunate Son ")]
              ++ progressbar 15 false
              ++ [Op.Goto 0 14, Op.WriteData 0b01111100, Op.WriteData 0x00])
      ∧ percentage amd64 fortunate = 15
      ∧ solidBlocks (progressbar 15 false) = 2
      ∧ percentage amd64 (snapshot 29 50 [] true) = 57 :=
  success_tick_display amd64 0 fortunate false 30000 200000 (le_refl _) rfl (by norm_num) rfl
    (by norm_num)
    (lt_of_le_of_lt
      (rne_scaled_le_hundred (by norm_num) (by norm_num) (by norm_num)).2 (by norm_num [amd64]))

end SpotifyLcd
